import Mathlib

/-!
Verification of the flipkart_scanner order-fulfillment engine.

This file is a shallow embedding of the Python sources `app.py`, `db.py`,
`config.py` and `processor.py`:

* Python strings are modelled as `List Char` (`Str`); the handful of string
  operations the code uses (`.upper()`, `.strip()`, f-string concatenation,
  `%04d` zero padding, `in` membership) are defined below and mirror the
  Python semantics on the ASCII alphabet the scan grammar accepts.
* The order store (`out/orders.json`) is a `List Order`; a request cycle
  loads it, mutates it, saves it, so each endpoint becomes a pure function
  `Store → Store` (plus its response value).
* The SKU registry (`db.py`) is a `Registry` of lookup functions; the CSV
  loading is out of scope for the claims and the registry is a parameter.
* Document composition (`slice_and_build_order_pdf`) is a parameter
  `Comp : Order → Except Str Str`; `compActual` records what the calls in
  `app.py` actually do (they raise `TypeError`, see below).
* Geometry (`processor.py`) is modelled over `ℚ`; the float arithmetic in
  the source is exact on the configuration values involved.
-/

namespace FlipkartScanner

/-- Python strings, as lists of characters. -/
abbrev Str := List Char

/-- Coerce a Lean string literal to the model's string type. -/
def str (s : String) : Str := s.data

/-! ### Character classes and case folding

The scan grammar (`app.py` regexes) only involves ASCII; `charUp` models
Python `str.upper()` on that alphabet. -/

/-- ASCII decimal digit, the `\d` class of the `app.py` regexes. -/
def isDigitC (c : Char) : Bool := 48 ≤ c.toNat && c.toNat ≤ 57

/-- ASCII upper-case letter, the `[A-Z]` class (after upper-casing). -/
def isUpperAZ (c : Char) : Bool := 65 ≤ c.toNat && c.toNat ≤ 90

/-- Python `str.upper()` on one ASCII character. -/
def charUp (c : Char) : Char :=
  if 97 ≤ c.toNat && c.toNat ≤ 122 then Char.ofNat (c.toNat - 32) else c

/-- Python `str.upper()`. -/
def upperL (cs : Str) : Str := cs.map charUp

/-- Python `str.strip()`: drop whitespace from both ends. -/
def trimL (cs : Str) : Str :=
  ((cs.dropWhile Char.isWhitespace).reverse.dropWhile Char.isWhitespace).reverse

/-- `app.py` line 157: `code_raw = (payload.get("code") or "").strip().upper()`. -/
def normCode (code : Str) : Str := upperL (trimL code)

theorem charUp_digit {c : Char} (h : isDigitC c = true) : charUp c = c := by
  unfold isDigitC at h
  unfold charUp
  rw [if_neg]
  simp only [Bool.and_eq_true, decide_eq_true_eq] at h ⊢
  omega

theorem upperL_digits {ds : Str} (h : ∀ c ∈ ds, isDigitC c = true) :
    upperL ds = ds := by
  induction ds with
  | nil => rfl
  | cons c rest ih =>
    have hc : charUp c = c := charUp_digit (h c (List.mem_cons_self c rest))
    have hr : upperL rest = rest := ih fun x hx => h x (List.mem_cons_of_mem c hx)
    simp only [upperL, List.map_cons] at *
    rw [hc, hr]

theorem isUpperAZ_not_sep {c : Char} (h : isUpperAZ c = true) :
    ¬(c = '-' ∨ c = '_' ∨ c = ':') := by
  intro hc
  rcases hc with h1 | h1 | h1 <;> (subst h1; revert h; decide)

/-! ### Decimal rendering: Python's `f"...{n:04d}"`. -/

/-- One decimal digit as a character. -/
def digitChar (d : Nat) : Char :=
  match d with
  | 0 => '0' | 1 => '1' | 2 => '2' | 3 => '3' | 4 => '4'
  | 5 => '5' | 6 => '6' | 7 => '7' | 8 => '8' | 9 => '9'
  | _ => '*'

/-- Most-significant-first decimal digits of `n`, with `fuel ≥ n` iterations. -/
def digitsAux : Nat → Nat → Str
  | 0, _ => []
  | fuel + 1, n =>
    if n = 0 then [] else digitsAux fuel (n / 10) ++ [digitChar (n % 10)]

/-- Decimal representation of a natural number (Python `str(n)` for `n ≥ 0`). -/
def natStr (n : Nat) : Str := if n = 0 then ['0'] else digitsAux n n

/-- Python `f"{n:04d}"`: decimal, left-padded with zeros to width 4. -/
def pad4 (n : Nat) : Str :=
  List.replicate (4 - (natStr n).length) '0' ++ natStr n

/-- Numeric value of a character (meaningful on digits). -/
def digitVal (c : Char) : Nat := c.toNat - 48

/-- Python `int(s)` on a (possibly zero-padded) digit string. -/
def strVal (cs : Str) : Nat := cs.foldl (fun a c => a * 10 + digitVal c) 0

theorem digitVal_digitChar : ∀ d, d < 10 → digitVal (digitChar d) = d := by decide

theorem foldl_digitsAux (fuel : Nat) :
    ∀ n acc, n ≤ fuel → n ≠ 0 →
      (digitsAux fuel n).foldl (fun a c => a * 10 + digitVal c) acc =
        acc * 10 ^ (digitsAux fuel n).length + n := by
  induction fuel with
  | zero => intro n acc h h0; omega
  | succ fuel ih =>
    intro n acc h h0
    rw [digitsAux, if_neg h0]
    rw [List.foldl_append, List.length_append]
    simp only [List.foldl_cons, List.foldl_nil, List.length_cons, List.length_nil,
      Nat.zero_add]
    have hd : digitVal (digitChar (n % 10)) = n % 10 :=
      digitVal_digitChar _ (Nat.mod_lt n (by omega))
    by_cases hq : n / 10 = 0
    · have hn10 : n < 10 := by omega
      rw [hq]
      have hz : digitsAux fuel 0 = [] := by cases fuel <;> simp [digitsAux]
      rw [hz]
      simp only [List.foldl_nil, List.length_nil]
      rw [hd]
      have hmod : n % 10 = n := Nat.mod_eq_of_lt hn10
      rw [hmod]
      ring
    · have hdiv : n / 10 < n := Nat.div_lt_self (Nat.pos_of_ne_zero h0) (by decide)
      have hlt : n / 10 ≤ fuel := by omega
      rw [ih (n / 10) acc hlt hq, hd]
      have hstep : (acc * 10 ^ (digitsAux fuel (n / 10)).length + n / 10) * 10 + n % 10 =
          acc * (10 ^ (digitsAux fuel (n / 10)).length * 10) + (n / 10 * 10 + n % 10) := by
        ring
      have hmod : n / 10 * 10 + n % 10 = n := by omega
      rw [hstep, hmod, ← pow_succ]

theorem strVal_natStr (n : Nat) : strVal (natStr n) = n := by
  unfold natStr strVal
  by_cases h : n = 0
  · rw [if_pos h, h]; rfl
  · rw [if_neg h]
    rw [foldl_digitsAux n n 0 le_rfl h]
    ring

theorem strVal_replicate_zero_append (k : Nat) (s : Str) :
    ((List.replicate k '0' ++ s).foldl (fun a c => a * 10 + digitVal c) 0) =
      s.foldl (fun a c => a * 10 + digitVal c) 0 := by
  induction k with
  | zero => rfl
  | succ k ih =>
    rw [List.replicate_succ, List.cons_append, List.foldl_cons]
    simpa [digitVal] using ih

theorem strVal_pad4 (n : Nat) : strVal (pad4 n) = n := by
  unfold pad4 strVal
  rw [strVal_replicate_zero_append]
  exact strVal_natStr n

theorem pad4_injective {a b : Nat} (h : pad4 a = pad4 b) : a = b := by
  have := strVal_pad4 a
  rw [h, strVal_pad4] at this
  omega

/-! ### SKU registry (`db.py`)

The registry is loaded once per process from three CSV files; the loading is
idempotent and the loaded tables are read-only afterwards, so the claims are
settled over an arbitrary fixed registry.  `db.py` sanitizes the `type`
column to exactly `Compulsory` or `Loose` (anything else falls back to
`Loose`), hence the two-constructor `VType`.  The no-scan exemption set is
independent of the classification. -/

inductive VType where
  | Compulsory
  | Loose
deriving DecidableEq

structure Registry where
  vtype : Str → VType
  noscan : Str → Bool

/-- `db.py` `get_sku_info(sku).type`: key is `sku.strip().upper()`. -/
def getVType (reg : Registry) (s : Str) : VType := reg.vtype (upperL (trimL s))

/-- `db.py` `is_noscan_sku(sku)`: `sku.strip().upper() in _extras_noscan`. -/
def isNoscanSku (reg : Registry) (s : Str) : Bool := reg.noscan (upperL (trimL s))

/-! ### Fulfillment store data model (`orders.json`)

The descriptive fields `invoice_number`, `customer_name` and `date` are kept
by the code but never read by any of the verified operations, so they are
not modelled.  Status strings are the three values the code ever assigns. -/

inductive Status where
  | pending
  | ready
  | error
deriving DecidableEq

structure Item where
  sku : Str
  qty : Nat
  product_ids : List Str
deriving DecidableEq

structure Order where
  order_id : Str
  page_index : Nat
  pdf_path : Str
  status : Status
  items : List Item
  out_pdf : Option Str
  error_detail : Option Str
deriving DecidableEq

abbrev Store := List Order

/-! ### Document composition as seen from `app.py`

`slice_and_build_order_pdf` writes a PDF and raises on failure; the scan and
bulk handlers catch the exception.  We model a composition attempt on an
order as `Comp : Order → Except Str Str` (error detail, or the output path).

`compActual` is the composition attempt the code actually performs:
`app.py` (lines 238-244 and 313-319) calls
`slice_and_build_order_pdf(source_pdf=..., page_index=..., out_pdf=...,
labels=labels, invoices=invoices)`, but `processor.py` line 87 defines
`def slice_and_build_order_pdf(source_pdf, page_index, out_pdf)` with no
`labels`/`invoices` parameters, so in Python every such call raises
`TypeError` before any rendering happens. -/

abbrev Comp := Order → Except Str Str

def typeErrDetail : Str :=
  str "TypeError: slice_and_build_order_pdf got an unexpected keyword argument labels"

def compActual : Comp := fun _ => Except.error typeErrDetail

/-- A composition collaborator that succeeds, writing `out/{order_id}.pdf`
(what the calls in `app.py` evidently intend to invoke). -/
def compOk : Comp := fun o => Except.ok (o.order_id ++ str ".pdf")

/-! ### Pages emitted by `slice_and_build_order_pdf` (`processor.py` 100-106)

When invoked with its actual three-argument signature, the function writes
the label page once and the invoice page exactly twice, with no dependence
on the per-SKU print counts (which it cannot even receive). -/

inductive PageKind where
  | label
  | invoice
deriving DecidableEq

def sliceAndBuildPages : List PageKind :=
  [PageKind.label, PageKind.invoice, PageKind.invoice]

/-! ### Unit tokens -/

/-- Auto-generated token for a bare Loose scan: `f"SCAN-{sku}-{idx:04d}"`
(`app.py` line 221). -/
def scanTok (sku : Str) (i : Nat) : Str :=
  (str "SCAN-" ++ sku ++ str "-") ++ pad4 i

/-- Bulk-fulfill token: `f"BULK-{sku}-{idx:04d}"` (`app.py` line 304). -/
def bulkTok (sku : Str) (i : Nat) : Str :=
  (str "BULK-" ++ sku ++ str "-") ++ pad4 i

theorem bulkTok_inj {sku : Str} {i j : Nat} (h : bulkTok sku i = bulkTok sku j) :
    i = j := by
  unfold bulkTok at h
  exact pad4_injective (List.append_cancel_left h)

/-! ### Scan-code grammar (`app.py` lines 163 and 179)

The raw code is `strip().upper()`-normalized first, then matched against
`^(AT\d{4})$` (bare SKU) and, failing that,
`^(AT\d{4})[-_:]?([A-Z])(\d{1,4})$` (compound code).  Both regexes carry
`IGNORECASE`, which is moot after the upper-casing. -/

/-- `^(AT\d{4})$`: exactly `AT` followed by exactly four digits. -/
def parseBare (cs : Str) : Option Str :=
  match cs with
  | ['A', 'T', a, b, c, d] =>
    if isDigitC a && isDigitC b && isDigitC c && isDigitC d then
      some ['A', 'T', a, b, c, d]
    else none
  | _ => none

/-- The optional `[-_:]?` separator. -/
def dropSep (cs : Str) : Str :=
  match cs with
  | c :: rest => if c = '-' ∨ c = '_' ∨ c = ':' then rest else c :: rest
  | [] => []

/-- `([A-Z])(\d{1,4})$` and the token normalization
`product_id = f"{letter}{int(digits):04d}"` (`app.py` line 188). -/
def parseUnit (cs : Str) : Option Str :=
  match cs with
  | c :: ds =>
    if isUpperAZ c && ds.all isDigitC && decide (1 ≤ ds.length) &&
        decide (ds.length ≤ 4) then
      some (c :: pad4 (strVal ds))
    else none
  | [] => none

/-- `^(AT\d{4})[-_:]?([A-Z])(\d{1,4})$`, returning the SKU and the
normalized unit token. -/
def parseCompound (cs : Str) : Option (Str × Str) :=
  match cs with
  | 'A' :: 'T' :: a :: b :: c :: d :: rest =>
    if isDigitC a && isDigitC b && isDigitC c && isDigitC d then
      match parseUnit (dropSep rest) with
      | some tok => some (['A', 'T', a, b, c, d], tok)
      | none => none
    else none
  | _ => none

/-! ### Completion evaluation (`app.py` `_is_order_complete`, lines 128-144)

For each item: `sku = it["sku"].upper()`, exempt items are skipped, and the
order is incomplete iff some non-exempt item has `filled < qty`. -/

def isComplete (reg : Registry) (o : Order) : Bool :=
  o.items.all fun it =>
    isNoscanSku reg (upperL it.sku) || decide (it.qty ≤ it.product_ids.length)

/-! ### Scan matcher (`app.py` `scan`, lines 146-258) -/

/-- The body of the inner item loop (`app.py` lines 200-231) for one item:
`some it2` when the scan mutates the item (the loop then breaks), `none`
when the loop falls through to the next item.  The final `none` arm
(no explicit unit token for a non-Loose SKU) is unreachable from
`applyScan`, which rejects bare codes for Compulsory SKUs before the loop. -/
def scanItem1 (reg : Registry) (ty : VType) (sku : Str) (pid : Option Str)
    (it : Item) : Option Item :=
  if upperL it.sku = sku then
    if isNoscanSku reg sku then none
    else if it.qty ≤ it.product_ids.length then none
    else if ty = VType.Loose ∧ pid = none then
      some { it with
        product_ids := it.product_ids ++ [scanTok sku (it.product_ids.length + 1)] }
    else
      match pid with
      | some p =>
        if it.product_ids.contains p then none
        else some { it with product_ids := it.product_ids ++ [p] }
      | none => none
  else none

/-- Replace the first element of a list on which `f` fires; `none` when `f`
fires nowhere (the shape of a for-loop that mutates one element and
breaks). -/
def replaceFirst {α : Type} (f : α → Option α) : List α → Option (List α)
  | [] => none
  | x :: rest =>
    match f x with
    | some y => some (y :: rest)
    | none => (replaceFirst f rest).map fun l => x :: l

/-- The inner item loop over an order's items. -/
def scanItems (reg : Registry) (ty : VType) (sku : Str) (pid : Option Str)
    (items : List Item) : Option (List Item) :=
  replaceFirst (scanItem1 reg ty sku pid) items

/-- Completion handling after a mutation (`app.py` lines 234-250): on
completion, compose synchronously; success sets `ready` and records the
output path, failure sets `error` and records the detail.
`completed_order_id` is only set on success. -/
def finishOrder (reg : Registry) (comp : Comp) (o : Order) : Order × Option Str :=
  if isComplete reg o then
    match comp o with
    | Except.ok path =>
      ({ o with status := Status.ready, out_pdf := some path }, some o.order_id)
    | Except.error e =>
      ({ o with status := Status.error, error_detail := some e }, none)
  else (o, none)

/-- The outer order loop body for one order (`app.py` lines 196-251):
non-pending orders are skipped; a pending order is mutated iff its item
loop fires, in which case the scan stops. -/
def scanOrder1 (reg : Registry) (comp : Comp) (ty : VType) (sku : Str)
    (pid : Option Str) (o : Order) : Option (Order × Option Str) :=
  if o.status = Status.pending then
    match scanItems reg ty sku pid o.items with
    | some items2 => some (finishOrder reg comp { o with items := items2 })
    | none => none
  else none

/-- The outer order loop: returns `(updated, completed_order_id, orders)`. -/
def scanOrders (reg : Registry) (comp : Comp) (ty : VType) (sku : Str)
    (pid : Option Str) : Store → Bool × Option Str × Store
  | [] => (false, none, [])
  | o :: rest =>
    match scanOrder1 reg comp ty sku pid o with
    | some oc => (true, oc.2, oc.1 :: rest)
    | none =>
      let r := scanOrders reg comp ty sku pid rest
      (r.1, r.2.1, o :: r.2.2)

/-- The scan handler's response. -/
inductive ScanResp where
  | err (msg : Str)
  | done (updated : Bool) (completed : Option Str)
deriving DecidableEq

/-- Error message for a bare code naming a Compulsory SKU (`app.py` 172-175),
which names the expected compound form. -/
def compulsoryMsg (sku : Str) : Str :=
  str "SKU " ++ sku ++ str " is Compulsory - scan with product id (e.g. " ++
    sku ++ str "-A0001)"

def invalidFormatMsg : Str :=
  str "Invalid code format. Expected AT0001 or AT0001-A001 / AT0001-A0001"

/-- Package a store-loop result as the handler's response. -/
def scanRun (reg : Registry) (comp : Comp) (ty : VType) (sku : Str)
    (pid : Option Str) (store : Store) : ScanResp × Store :=
  ((ScanResp.done (scanOrders reg comp ty sku pid store).1
      (scanOrders reg comp ty sku pid store).2.1),
    (scanOrders reg comp ty sku pid store).2.2)

/-- The `/scan` handler (`app.py` lines 146-258): normalize, parse (bare SKU
first, rejecting bare Compulsory codes before any store access, then
compound), then run the store loop.  Returns the response and the store as
saved. -/
def applyScan (reg : Registry) (comp : Comp) (code : Str) (store : Store) :
    ScanResp × Store :=
  if normCode code = [] then (ScanResp.err (str "No barcode provided"), store)
  else
    match parseBare (normCode code) with
    | some sku =>
      if getVType reg sku = VType.Compulsory then
        (ScanResp.err (compulsoryMsg sku), store)
      else scanRun reg comp (getVType reg sku) sku none store
    | none =>
      match parseCompound (normCode code) with
      | some st => scanRun reg comp (getVType reg st.1) st.1 (some st.2) store
      | none => (ScanResp.err invalidFormatMsg, store)

/-! ### Page ingestion (`app.py` `upload`, lines 37-103)

One parsed page is an envelope; ingesting it either appends a fresh pending
order or merges into the existing order with that id (`orders_by_id` is a
Python dict built from the list, so with duplicate ids the last occurrence
wins, modelled by updating the last match; ids are unique in stores the
code itself builds).  Merging refreshes `page_index`/`pdf_path`, takes the
max quantity for items matched by (raw) SKU and appends unseen items. -/

structure Envelope where
  order_id : Str
  page_index : Nat
  pdf_path : Str
  items : List (Str × Nat)

def newItem (p : Str × Nat) : Item := ⟨p.1, p.2, []⟩

def newOrder (env : Envelope) : Order :=
  ⟨env.order_id, env.page_index, env.pdf_path, Status.pending,
    env.items.map newItem, none, none⟩

/-- Update the first item with the given SKU: `by_sku[sku]["qty"] = max(...)`
(applied through `reverse` to hit the dict's last-wins entry). -/
def updateFirstQty : List Item → Str × Nat → List Item
  | [], _ => []
  | it :: rest, p =>
    if it.sku = p.1 then { it with qty := max it.qty p.2 } :: rest
    else it :: updateFirstQty rest p

/-- One step of the item-merge loop (`app.py` lines 94-98): `by_sku` is
built from the pre-merge items (`olds`) and is not extended during the
loop, so membership is tested against `olds` while the quantity update
lands on the last pre-merge occurrence. -/
def mergeStep (olds acc : List Item) (p : Str × Nat) : List Item :=
  if olds.any fun it => it.sku = p.1 then (updateFirstQty acc.reverse p).reverse
  else acc ++ [newItem p]

/-- Item merge (`app.py` lines 93-98). -/
def mergeItems (olds : List Item) (news : List (Str × Nat)) : List Item :=
  news.foldl (mergeStep olds) olds

def mergeOrder (env : Envelope) (o : Order) : Order :=
  { o with
    page_index := env.page_index
    pdf_path := env.pdf_path
    items := mergeItems o.items env.items }

def updateFirstOrder : Store → Envelope → Store
  | [], _ => []
  | o :: rest, env =>
    if o.order_id = env.order_id then mergeOrder env o :: rest
    else o :: updateFirstOrder rest env

def ingestPage (env : Envelope) (st : Store) : Store :=
  if st.any fun o => o.order_id = env.order_id then
    (updateFirstOrder st.reverse env).reverse
  else st ++ [newOrder env]

/-! ### Bulk fulfillment (`app.py` `bulk_print`, lines 264-360)

The filling `while` loop recomputes `token = f"BULK-{sku}-{len+1:04d}"` each
iteration and appends it only if absent; when the token is already present
the body changes nothing and the Python loop repeats the identical state
forever.  `bulkFill fuel` unrolls `fuel` iterations of that body, so a
state on which the body makes no progress is a fixed point for every
fuel. -/

/-- One iteration of the `while len(product_ids) < qty` body
(`app.py` lines 302-306): recompute `token = f"BULK-{sku}-{len+1:04d}"` and
append it only when absent. -/
def bulkStep (sku : Str) (it : Item) : Item :=
  if it.product_ids.contains (bulkTok sku (it.product_ids.length + 1)) then it
  else
    { it with
      product_ids := it.product_ids ++ [bulkTok sku (it.product_ids.length + 1)] }

/-- The fuelled while loop. -/
def bulkFill (sku : Str) : Nat → Item → Item
  | 0, it => it
  | fuel + 1, it =>
    if it.product_ids.length < it.qty then bulkFill sku fuel (bulkStep sku it)
    else it

/-- Composition outcome handling shared by a completing bulk order
(`app.py` lines 312-326). -/
def bulkCompose (comp : Comp) (o2 : Order) : Order :=
  match comp o2 with
  | Except.ok path => { o2 with status := Status.ready, out_pdf := some path }
  | Except.error e => { o2 with status := Status.error, error_detail := some e }

/-- The bulk loop body for one order, scrutinizing its item list
(`app.py` lines 287-326): only orders with exactly one item whose SKU
matches are touched; their single item is filled and the order is composed
regardless of the registry classification — and regardless of the order's
current status, which the loop never checks. -/
def bulkOrderAux (comp : Comp) (fuel : Nat) (sku : Str) (o : Order) :
    List Item → Order
  | [it] =>
    if upperL it.sku = sku then
      bulkCompose comp { o with items := [bulkFill sku fuel it] }
    else o
  | _ => o

def bulkOrder1 (comp : Comp) (fuel : Nat) (sku : Str) (o : Order) : Order :=
  bulkOrderAux comp fuel sku o o.items

/-- The bulk loop over all orders (no status filter in the source). -/
def bulkLoop (comp : Comp) (fuel : Nat) (sku : Str) : Store → Store
  | [] => []
  | o :: rest => bulkOrder1 comp fuel sku o :: bulkLoop comp fuel sku rest

/-- The `/bulk_print` handler's store mutation: the SKU is
`strip().upper()`-normalized and must be nonempty (`app.py` 277-280). -/
def bulkFulfill (comp : Comp) (fuel : Nat) (rawSku : Str) (st : Store) : Store :=
  if upperL (trimL rawSku) = [] then st
  else bulkLoop comp fuel (upperL (trimL rawSku)) st

/-! ### Operation sequences over the store -/

inductive Op where
  | ingest (env : Envelope)
  | scan (code : Str)
  | bulk (sku : Str) (fuel : Nat)

def execOp (reg : Registry) (comp : Comp) (st : Store) : Op → Store
  | Op.ingest env => ingestPage env st
  | Op.scan code => (applyScan reg comp code st).2
  | Op.bulk sku fuel => bulkFulfill comp fuel sku st

def execOps (reg : Registry) (comp : Comp) (st : Store) (ops : List Op) : Store :=
  ops.foldl (execOp reg comp) st

/-! ### Geometry of the document slicer (`processor.py` lines 50-85)

Modelled over `ℚ`; the configuration constants of `config.py` are exact
decimal values and the geometry derivations on them are exact, so `ℚ`
faithfully captures the arithmetic the claims are about. -/

structure RectQ where
  x0 : ℚ
  y0 : ℚ
  x1 : ℚ
  y1 : ℚ
deriving DecidableEq

def RectQ.width (r : RectQ) : ℚ := r.x1 - r.x0

def RectQ.height (r : RectQ) : ℚ := r.y1 - r.y0

/-- `config.py`: `page_width_pt = 85.039`. -/
def page_width_pt : ℚ := 85039 / 1000

/-- `config.py`: `page_height_pt = 120.425`. -/
def page_height_pt : ℚ := 120425 / 1000

/-- `config.py`: `label_zoom = 1.83`. -/
def label_zoom : ℚ := 183 / 100

/-- `config.py`: `rotate_invoice_deg = 90`. -/
def rotate_invoice_deg : Int := 90

/-- Destination rectangle centred on the fixed output page: content of size
`w × h`, uniformly scaled by `scale` (`dx = (W - dest_w)/2` etc.). -/
def destRect (W H w h scale : ℚ) : RectQ :=
  ⟨(W - w * scale) / 2, (H - h * scale) / 2,
    (W - w * scale) / 2 + w * scale, (H - h * scale) / 2 + h * scale⟩

/-- `_render_clip_to_fixed_page` (lines 50-66): fit scale times the label
zoom, both axes scaled by the same factor. -/
def labelDest (W H zoom : ℚ) (clip : RectQ) : RectQ :=
  destRect W H clip.width clip.height
    (min (W / clip.width) (H / clip.height) * zoom)

/-- `_render_rotated_clip_to_fixed_page` (lines 68-85): swap the content
dimensions when `rotation_deg % 180 == 90`. -/
def contentDims (rot : Int) (clip : RectQ) : ℚ × ℚ :=
  if rot % 180 = 90 then (clip.height, clip.width) else (clip.width, clip.height)

def invoiceDest (W H : ℚ) (rot : Int) (clip : RectQ) : RectQ :=
  destRect W H (contentDims rot clip).1 (contentDims rot clip).2
    (min (W / (contentDims rot clip).1) (H / (contentDims rot clip).2))

/-- The destination rectangle lies inside the output page `(0,0)-(W,H)`. -/
def RectQ.inPage (r : RectQ) (W H : ℚ) : Prop :=
  0 ≤ r.x0 ∧ 0 ≤ r.y0 ∧ r.x1 ≤ W ∧ r.y1 ≤ H

/-! ### Store invariant -/

/-- The per-item part of the promised store invariant. -/
def ItemInv (it : Item) : Prop := it.product_ids.length ≤ it.qty

instance : DecidablePred ItemInv := fun it =>
  inferInstanceAs (Decidable (it.product_ids.length ≤ it.qty))

/-- `len(verified_units) ≤ quantity` for every line item of every order. -/
def StoreInv (st : Store) : Prop := ∀ o ∈ st, ∀ it ∈ o.items, ItemInv it

instance : DecidablePred StoreInv := fun st =>
  inferInstanceAs (Decidable (∀ o ∈ st, ∀ it ∈ o.items, ItemInv it))

/-! ### Concrete fixtures used by witnesses and counterexamples -/

/-- A registry as a master-data load would produce it: `AT0002` classified
Compulsory, `AT0003` in the no-scan exemption set, everything else the
synthesized Loose default. -/
def regW : Registry :=
  ⟨fun s => if s = str "AT0002" then VType.Compulsory else VType.Loose,
    fun s => decide (s = str "AT0003")⟩

/-- A pending single-item order needing one unit of Loose `AT0001`. -/
def ordScanW : Order :=
  ⟨str "OD1", 0, str "uploaded.pdf", Status.pending,
    [⟨str "AT0001", 1, []⟩], none, none⟩

/-- The spec's completion example: a Compulsory item fully verified next to
an exempt item with zero verified units. -/
def ordC2W : Order :=
  ⟨str "OD2", 0, str "uploaded.pdf", Status.pending,
    [⟨str "AT0002", 2, [str "A0001", str "A0002"]⟩, ⟨str "AT0003", 5, []⟩],
    none, none⟩

/-- A non-pending (ready) single-item order for `AT0001` with one unit
still missing. -/
def ordReadyCE : Order :=
  ⟨str "OD9", 0, str "uploaded.pdf", Status.ready,
    [⟨str "AT0001", 2, [str "A0001"]⟩], some (str "OD9.pdf"), none⟩

/-- An item whose token list already holds the very token the bulk loop
would generate next (`len = 1`, next index 2). -/
def itemBulkCE : Item := ⟨str "AT0001", 2, [str "BULK-AT0001-0002"]⟩

/-- A fresh item with an empty token list. -/
def itemEmptyW : Item := ⟨str "AT0001", 2, []⟩

/-- A clip region with exactly the output page's dimensions. -/
def clipFullCE : RectQ := ⟨0, 0, page_width_pt, page_height_pt⟩

def envW : Envelope := ⟨str "OD1", 0, str "uploaded.pdf", [(str "AT0001", 1)]⟩

def opsW : List Op := [Op.ingest envW, Op.scan (str "AT0001"), Op.bulk (str "AT0001") 3]

/-! ### Structure lemmas for the scan loops -/

theorem replaceFirst_some {α : Type} (f : α → Option α) :
    ∀ {l l' : List α}, replaceFirst f l = some l' →
      ∃ pre x y suf, l = pre ++ x :: suf ∧ l' = pre ++ y :: suf ∧
        f x = some y ∧ ∀ j ∈ pre, f j = none := by
  intro l
  induction l with
  | nil => intro l' h; simp [replaceFirst] at h
  | cons x rest ih =>
    intro l' h
    rw [replaceFirst] at h
    cases hx : f x with
    | some y =>
      rw [hx] at h
      refine ⟨[], x, y, rest, rfl, ?_, hx, by simp⟩
      simpa using h.symm
    | none =>
      rw [hx] at h
      cases hr : replaceFirst f rest with
      | none => rw [hr] at h; simp at h
      | some r2 =>
        rw [hr] at h
        have h2 : x :: r2 = l' := by simpa using h
        obtain ⟨pre, a, y, suf, hl, hl2, hf, hpre⟩ := ih hr
        refine ⟨x :: pre, a, y, suf, by rw [List.cons_append, hl], ?_, hf, ?_⟩
        · rw [← h2, hl2, List.cons_append]
        · intro j hj
          rcases List.mem_cons.mp hj with hj | hj
          · rw [hj]; exact hx
          · exact hpre j hj

theorem scanItem1_some {reg : Registry} {ty : VType} {sku : Str}
    {pid : Option Str} {it it2 : Item}
    (h : scanItem1 reg ty sku pid it = some it2) :
    it2.sku = it.sku ∧ it2.qty = it.qty ∧ upperL it.sku = sku ∧
      it.product_ids.length < it.qty ∧
      ∃ tok, it2.product_ids = it.product_ids ++ [tok] := by
  unfold scanItem1 at h
  by_cases h1 : upperL it.sku = sku
  · rw [if_pos h1] at h
    by_cases h2 : isNoscanSku reg sku = true
    · rw [if_pos h2] at h; exact Option.noConfusion h
    · rw [if_neg h2] at h
      by_cases h3 : it.qty ≤ it.product_ids.length
      · rw [if_pos h3] at h; exact Option.noConfusion h
      · rw [if_neg h3] at h
        by_cases h4 : ty = VType.Loose ∧ pid = none
        · rw [if_pos h4] at h
          cases h
          exact ⟨rfl, rfl, h1, by omega, _, rfl⟩
        · rw [if_neg h4] at h
          cases pid with
          | some p =>
            by_cases h5 : it.product_ids.contains p = true
            · have h6 : (none : Option Item) = some it2 := by
                rw [← h]; exact (if_pos h5).symm
              exact Option.noConfusion h6
            · have h6 : some { it with product_ids := it.product_ids ++ [p] } =
                  some it2 := by
                rw [← h]; exact (if_neg h5).symm
              cases h6
              exact ⟨rfl, rfl, h1, by omega, _, rfl⟩
          | none => exact Option.noConfusion h
  · rw [if_neg h1] at h; exact Option.noConfusion h

theorem scanItem1_full {reg : Registry} {ty : VType} {sku : Str}
    {pid : Option Str} {it : Item} (h : it.qty ≤ it.product_ids.length) :
    scanItem1 reg ty sku pid it = none := by
  unfold scanItem1
  by_cases h1 : upperL it.sku = sku
  · rw [if_pos h1]
    by_cases h2 : isNoscanSku reg sku = true
    · rw [if_pos h2]
    · rw [if_neg h2, if_pos h]
  · rw [if_neg h1]

theorem finishOrder_items (reg : Registry) (comp : Comp) (o : Order) :
    (finishOrder reg comp o).1.items = o.items ∧
      (finishOrder reg comp o).1.order_id = o.order_id := by
  unfold finishOrder
  split_ifs with h
  · cases comp o <;> exact ⟨rfl, rfl⟩
  · exact ⟨rfl, rfl⟩

theorem scanOrder1_some {reg : Registry} {comp : Comp} {ty : VType} {sku : Str}
    {pid : Option Str} {o : Order} {oc : Order × Option Str}
    (h : scanOrder1 reg comp ty sku pid o = some oc) :
    o.status = Status.pending ∧
      ∃ items2, scanItems reg ty sku pid o.items = some items2 ∧
        oc = finishOrder reg comp { o with items := items2 } := by
  unfold scanOrder1 at h
  split_ifs at h with h1
  cases hm : scanItems reg ty sku pid o.items with
  | some items2 =>
    rw [hm] at h
    cases h
    exact ⟨h1, items2, rfl, rfl⟩
  | none => rw [hm] at h; cases h

theorem scanOrders_cases (reg : Registry) (comp : Comp) (ty : VType) (sku : Str)
    (pid : Option Str) : ∀ st : Store,
    scanOrders reg comp ty sku pid st = (false, none, st) ∨
      ∃ pre o oc suf, st = pre ++ o :: suf ∧
        scanOrders reg comp ty sku pid st = (true, oc.2, pre ++ oc.1 :: suf) ∧
        scanOrder1 reg comp ty sku pid o = some oc ∧
        ∀ p ∈ pre, scanOrder1 reg comp ty sku pid p = none := by
  intro st
  induction st with
  | nil => left; rfl
  | cons o rest ih =>
    cases ho : scanOrder1 reg comp ty sku pid o with
    | some oc =>
      right
      exact ⟨[], o, oc, rest, rfl, by simp [scanOrders, ho], ho, by simp⟩
    | none =>
      rcases ih with hn | ⟨pre, o2, oc, suf, hst, heq, hone, hpre⟩
      · left
        simp [scanOrders, ho, hn]
      · right
        refine ⟨o :: pre, o2, oc, suf, by rw [List.cons_append, hst], ?_, hone, ?_⟩
        · simp only [scanOrders, ho, heq, List.cons_append]
        · intro p hp
          rcases List.mem_cons.mp hp with hp | hp
          · rw [hp]; exact ho
          · exact hpre p hp

/-- The store returned by `applyScan` is either untouched (error paths, or
no match) or the store-loop result for the resolved SKU parameters. -/
theorem applyScan_store_cases (reg : Registry) (comp : Comp) (code : Str)
    (st : Store) :
    (applyScan reg comp code st).2 = st ∨
      ∃ ty sku pid,
        (applyScan reg comp code st).2 = (scanOrders reg comp ty sku pid st).2.2 := by
  unfold applyScan
  by_cases h0 : normCode code = []
  · left; simp [h0]
  · simp only [h0, if_false]
    cases hb : parseBare (normCode code) with
    | some sku =>
      by_cases hc : getVType reg sku = VType.Compulsory
      · left; simp [hc]
      · right
        exact ⟨getVType reg sku, sku, none, by simp [hc, scanRun]⟩
    | none =>
      cases hcp : parseCompound (normCode code) with
      | some st2 =>
        right
        exact ⟨getVType reg st2.1, st2.1, some st2.2, by simp [scanRun]⟩
      | none => left; simp

/-! ### Invariant preservation -/

theorem scanItems_inv {reg : Registry} {ty : VType} {sku : Str}
    {pid : Option Str} {items items2 : List Item}
    (h : scanItems reg ty sku pid items = some items2)
    (hi : ∀ it ∈ items, ItemInv it) : ∀ it ∈ items2, ItemInv it := by
  obtain ⟨pre, x, y, suf, hl, hl2, hf, _⟩ := replaceFirst_some _ h
  subst hl hl2
  intro it hit
  rcases List.mem_append.mp hit with hit | hit
  · exact hi it (List.mem_append.mpr (Or.inl hit))
  · rcases List.mem_cons.mp hit with hit | hit
    · subst hit
      obtain ⟨_, hq, _, hlen, tok, hpids⟩ := scanItem1_some hf
      unfold ItemInv
      rw [hq, hpids, List.length_append]
      simp only [List.length_cons, List.length_nil]
      omega
    · exact hi it (List.mem_append.mpr (Or.inr (List.mem_cons_of_mem x hit)))

theorem scanOrders_inv {reg : Registry} {comp : Comp} {ty : VType} {sku : Str}
    {pid : Option Str} {st : Store} (hi : StoreInv st) :
    StoreInv (scanOrders reg comp ty sku pid st).2.2 := by
  induction st with
  | nil => exact hi
  | cons o rest ih =>
    have hrest : StoreInv rest := fun o2 h2 => hi o2 (List.mem_cons_of_mem o h2)
    cases ho : scanOrder1 reg comp ty sku pid o with
    | some oc =>
      simp only [scanOrders, ho]
      intro o2 h2
      rcases List.mem_cons.mp h2 with h2 | h2
      · subst h2
        obtain ⟨_, items2, hm, hoc⟩ := scanOrder1_some ho
        rw [hoc]
        rw [(finishOrder_items reg comp _).1]
        exact scanItems_inv hm (hi o (List.mem_cons_self o rest))
      · exact hrest o2 h2
    | none =>
      simp only [scanOrders, ho]
      intro o2 h2
      rcases List.mem_cons.mp h2 with h2 | h2
      · subst h2; exact hi o2 (List.mem_cons_self o2 rest)
      · exact ih hrest o2 h2

theorem applyScan_inv {reg : Registry} {comp : Comp} {code : Str} {st : Store}
    (hi : StoreInv st) : StoreInv (applyScan reg comp code st).2 := by
  rcases applyScan_store_cases reg comp code st with h | ⟨ty, sku, pid, h⟩
  · rw [h]; exact hi
  · rw [h]; exact scanOrders_inv hi

theorem updateFirstQty_inv {items : List Item} {p : Str × Nat}
    (hi : ∀ it ∈ items, ItemInv it) : ∀ it ∈ updateFirstQty items p, ItemInv it := by
  induction items with
  | nil => exact hi
  | cons x rest ih =>
    have hrest : ∀ it ∈ rest, ItemInv it := fun it h2 => hi it (List.mem_cons_of_mem x h2)
    unfold updateFirstQty
    split_ifs with h1
    · intro it hit
      rcases List.mem_cons.mp hit with hit | hit
      · subst hit
        have := hi x (List.mem_cons_self x rest)
        unfold ItemInv at *
        simp only
        omega
      · exact hrest it hit
    · intro it hit
      rcases List.mem_cons.mp hit with hit | hit
      · subst hit; exact hi it (List.mem_cons_self it rest)
      · exact ih hrest it hit

theorem mergeStep_inv {olds acc : List Item} {p : Str × Nat}
    (hacc : ∀ it ∈ acc, ItemInv it) : ∀ it ∈ mergeStep olds acc p, ItemInv it := by
  unfold mergeStep
  split_ifs with h1
  · intro it hit
    rw [List.mem_reverse] at hit
    exact updateFirstQty_inv (fun j hj => hacc j (List.mem_reverse.mp hj)) it hit
  · intro it hit
    rcases List.mem_append.mp hit with hit | hit
    · exact hacc it hit
    · rcases List.mem_cons.mp hit with hit | hit
      · subst hit
        unfold ItemInv newItem
        simp
      · exact absurd hit (List.not_mem_nil it)

theorem mergeFoldl_inv {olds : List Item} :
    ∀ (news : List (Str × Nat)) (acc : List Item), (∀ it ∈ acc, ItemInv it) →
      ∀ it ∈ news.foldl (mergeStep olds) acc, ItemInv it := by
  intro news
  induction news with
  | nil => intro acc hacc; exact hacc
  | cons p rest ih =>
    intro acc hacc
    rw [List.foldl_cons]
    exact ih (mergeStep olds acc p) (mergeStep_inv hacc)

theorem mergeItems_inv {olds : List Item} {news : List (Str × Nat)}
    (hi : ∀ it ∈ olds, ItemInv it) : ∀ it ∈ mergeItems olds news, ItemInv it :=
  mergeFoldl_inv news olds hi

theorem ingestPage_inv {env : Envelope} {st : Store} (hi : StoreInv st) :
    StoreInv (ingestPage env st) := by
  unfold ingestPage
  split_ifs with h1
  · have hrev : StoreInv st.reverse := fun o h2 => hi o (List.mem_reverse.mp h2)
    have key : ∀ l : Store, StoreInv l → StoreInv (updateFirstOrder l env) := by
      intro l
      induction l with
      | nil => intro h; exact h
      | cons o rest ih =>
        intro hl
        have hrest : StoreInv rest := fun o2 h2 => hl o2 (List.mem_cons_of_mem o h2)
        unfold updateFirstOrder
        split_ifs with h2
        · intro o2 ho2
          rcases List.mem_cons.mp ho2 with ho2 | ho2
          · subst ho2
            intro it hit
            exact mergeItems_inv (hl o (List.mem_cons_self o rest)) it hit
          · exact hrest o2 ho2
        · intro o2 ho2
          rcases List.mem_cons.mp ho2 with ho2 | ho2
          · subst ho2; exact hl o2 (List.mem_cons_self o2 rest)
          · exact ih hrest o2 ho2
    intro o ho
    rw [List.mem_reverse] at ho
    exact key st.reverse hrev o ho
  · intro o ho
    rcases List.mem_append.mp ho with ho | ho
    · exact hi o ho
    · rcases List.mem_cons.mp ho with ho | ho
      · subst ho
        intro it hit
        unfold newOrder at hit
        simp only [List.mem_map] at hit
        obtain ⟨p, _, hp⟩ := hit
        rw [← hp]
        unfold ItemInv newItem
        simp
      · exact absurd ho (List.not_mem_nil o)

theorem bulkStep_inv {sku : Str} {it : Item} (h : it.product_ids.length < it.qty) :
    ItemInv (bulkStep sku it) := by
  unfold bulkStep ItemInv
  split_ifs with h1
  · omega
  · simp only [List.length_append, List.length_cons, List.length_nil]
    omega

theorem bulkStep_sku (sku : Str) (it : Item) : (bulkStep sku it).sku = it.sku := by
  unfold bulkStep
  split_ifs <;> rfl

theorem bulkStep_qty (sku : Str) (it : Item) : (bulkStep sku it).qty = it.qty := by
  unfold bulkStep
  split_ifs <;> rfl

theorem bulkFill_inv {sku : Str} {fuel : Nat} {it : Item} (hi : ItemInv it) :
    ItemInv (bulkFill sku fuel it) := by
  induction fuel generalizing it with
  | zero => exact hi
  | succ fuel ih =>
    unfold bulkFill
    split_ifs with h1
    · exact ih (bulkStep_inv h1)
    · exact hi

theorem bulkCompose_items (comp : Comp) (o2 : Order) :
    (bulkCompose comp o2).items = o2.items := by
  unfold bulkCompose
  cases comp o2 <;> rfl

theorem bulkOrder1_inv {comp : Comp} {fuel : Nat} {sku : Str} {o : Order}
    (hi : ∀ it ∈ o.items, ItemInv it) :
    ∀ it ∈ (bulkOrder1 comp fuel sku o).items, ItemInv it := by
  unfold bulkOrder1
  cases hcase : o.items with
  | nil => simp only [bulkOrderAux]; exact hi
  | cons it tl =>
    cases tl with
    | nil =>
      simp only [bulkOrderAux]
      split_ifs with h1
      · rw [bulkCompose_items]
        intro j hj
        simp only [List.mem_singleton] at hj
        subst hj
        have hit : ItemInv it := by
          apply hi; rw [hcase]; exact List.mem_cons_self it []
        exact bulkFill_inv hit
      · exact hi
    | cons it2 tl2 =>
      simp only [bulkOrderAux]
      exact hi

theorem bulkLoop_inv {comp : Comp} {fuel : Nat} {sku : Str} {st : Store}
    (hi : StoreInv st) : StoreInv (bulkLoop comp fuel sku st) := by
  induction st with
  | nil => exact hi
  | cons o rest ih =>
    have hrest : StoreInv rest := fun o2 h2 => hi o2 (List.mem_cons_of_mem o h2)
    unfold bulkLoop
    intro o2 ho2
    rcases List.mem_cons.mp ho2 with ho2 | ho2
    · subst ho2
      exact bulkOrder1_inv (hi o (List.mem_cons_self o rest))
    · exact ih hrest o2 ho2

theorem bulkFulfill_inv {comp : Comp} {fuel : Nat} {rawSku : Str} {st : Store}
    (hi : StoreInv st) : StoreInv (bulkFulfill comp fuel rawSku st) := by
  unfold bulkFulfill
  split_ifs with h1
  · exact hi
  · exact bulkLoop_inv hi

theorem execOp_inv {reg : Registry} {comp : Comp} {st : Store} {op : Op}
    (hi : StoreInv st) : StoreInv (execOp reg comp st op) := by
  cases op with
  | ingest env => exact ingestPage_inv hi
  | scan code => exact applyScan_inv hi
  | bulk sku fuel => exact bulkFulfill_inv hi

theorem execOps_inv {reg : Registry} {comp : Comp} {st : Store} {ops : List Op}
    (hi : StoreInv st) : StoreInv (execOps reg comp st ops) := by
  unfold execOps
  induction ops generalizing st with
  | nil => exact hi
  | cons op rest ih =>
    rw [List.foldl_cons]
    exact ih (execOp_inv hi)

/-! ### Behaviour of the bulk filling loop -/

theorem bulkStep_progress {sku : Str} {it : Item}
    (hno : bulkTok sku (it.product_ids.length + 1) ∉ it.product_ids) :
    (bulkStep sku it).product_ids =
      it.product_ids ++ [bulkTok sku (it.product_ids.length + 1)] := by
  unfold bulkStep
  rw [if_neg]
  simpa using hno

theorem bulkStep_stuck {sku : Str} {it : Item}
    (hin : bulkTok sku (it.product_ids.length + 1) ∈ it.product_ids) :
    bulkStep sku it = it := by
  unfold bulkStep
  rw [if_pos]
  simpa using hin

/-- If no token with an index beyond the current length is already present,
the fuelled loop fills the item to exactly its quantity (given enough
fuel), i.e. the source `while` loop terminates with `len = qty`. -/
theorem bulkFill_len {sku : Str} : ∀ (fuel : Nat) (it : Item),
    (∀ i, it.product_ids.length < i → bulkTok sku i ∉ it.product_ids) →
    it.qty ≤ it.product_ids.length + fuel →
    (bulkFill sku fuel it).product_ids.length = max it.product_ids.length it.qty := by
  intro fuel
  induction fuel with
  | zero =>
    intro it _ hfuel
    unfold bulkFill
    omega
  | succ fuel ih =>
    intro it hno hfuel
    unfold bulkFill
    split_ifs with h1
    · have hstep : (bulkStep sku it).product_ids =
          it.product_ids ++ [bulkTok sku (it.product_ids.length + 1)] :=
        bulkStep_progress (hno _ (Nat.lt_succ_self _))
      have hlen : (bulkStep sku it).product_ids.length = it.product_ids.length + 1 := by
        rw [hstep, List.length_append, List.length_cons, List.length_nil]
      have hqty : (bulkStep sku it).qty = it.qty := bulkStep_qty sku it
      have hno2 : ∀ i, (bulkStep sku it).product_ids.length < i →
          bulkTok sku i ∉ (bulkStep sku it).product_ids := by
        intro i hi
        rw [hlen] at hi
        rw [hstep]
        intro hmem
        rcases List.mem_append.mp hmem with hmem | hmem
        · exact hno i (by omega) hmem
        · rcases List.mem_cons.mp hmem with hmem | hmem
          · have := bulkTok_inj hmem
            omega
          · exact absurd hmem (List.not_mem_nil _)
      have := ih (bulkStep sku it) hno2 (by omega)
      rw [this, hlen, hqty]
      omega
    · omega

/-! ### Which orders bulk fulfillment touches -/

theorem bulkLoop_eq_map (comp : Comp) (fuel : Nat) (sku : Str) :
    ∀ st : Store, bulkLoop comp fuel sku st = st.map (bulkOrder1 comp fuel sku) := by
  intro st
  induction st with
  | nil => rfl
  | cons o rest ih => rw [bulkLoop, List.map_cons, ih]

theorem bulkOrder1_not_single {comp : Comp} {fuel : Nat} {sku : Str} {o : Order}
    (h : ∀ it : Item, o.items ≠ [it]) : bulkOrder1 comp fuel sku o = o := by
  unfold bulkOrder1
  cases hcase : o.items with
  | nil => rfl
  | cons it tl =>
    cases tl with
    | nil => exact absurd hcase (h it)
    | cons it2 tl2 => rfl

theorem bulkOrder1_other_sku {comp : Comp} {fuel : Nat} {sku : Str} {o : Order}
    {it : Item} (h : o.items = [it]) (h2 : upperL it.sku ≠ sku) :
    bulkOrder1 comp fuel sku o = o := by
  unfold bulkOrder1
  rw [h]
  simp only [bulkOrderAux]
  rw [if_neg h2]

theorem bulkOrder1_hit {comp : Comp} {fuel : Nat} {sku : Str} {o : Order}
    {it : Item} (h : o.items = [it]) (h2 : upperL it.sku = sku) :
    bulkOrder1 comp fuel sku o =
      bulkCompose comp { o with items := [bulkFill sku fuel it] } := by
  unfold bulkOrder1
  rw [h]
  simp only [bulkOrderAux]
  rw [if_pos h2]

theorem destRect_width (W H w h scale : ℚ) :
    (destRect W H w h scale).width = w * scale := by
  unfold destRect RectQ.width
  ring

theorem destRect_height (W H w h scale : ℚ) :
    (destRect W H w h scale).height = h * scale := by
  unfold destRect RectQ.height
  ring

theorem destRect_inPage {W H w h scale : ℚ} (hwW : w * scale ≤ W)
    (hhH : h * scale ≤ H) : (destRect W H w h scale).inPage W H := by
  unfold destRect RectQ.inPage
  refine ⟨by linarith, by linarith, by linarith, by linarith⟩

theorem fit_le_W {W H w h : ℚ} (hw : 0 < w) :
    w * min (W / w) (H / h) ≤ W := by
  have h1 : min (W / w) (H / h) ≤ W / w := min_le_left _ _
  have h2 : w * min (W / w) (H / h) ≤ w * (W / w) :=
    mul_le_mul_of_nonneg_left h1 (le_of_lt hw)
  have h3 : w * (W / w) = W := by field_simp
  linarith

theorem fit_le_H {W H w h : ℚ} (hh : 0 < h) :
    h * min (W / w) (H / h) ≤ H := by
  have h1 : min (W / w) (H / h) ≤ H / h := min_le_right _ _
  have h2 : h * min (W / w) (H / h) ≤ h * (H / h) :=
    mul_le_mul_of_nonneg_left h1 (le_of_lt hh)
  have h3 : h * (H / h) = H := by field_simp
  linarith

theorem fit_nonneg {W H w h : ℚ} (hW : 0 < W) (hH : 0 < H) (hw : 0 < w)
    (hh : 0 < h) : 0 ≤ min (W / w) (H / h) := by
  have h1 : 0 < W / w := div_pos hW hw
  have h2 : 0 < H / h := div_pos hH hh
  have := lt_min h1 h2
  linarith

theorem contentDims_pos (rot : Int) {clip : RectQ} (hw : 0 < clip.width)
    (hh : 0 < clip.height) :
    0 < (contentDims rot clip).1 ∧ 0 < (contentDims rot clip).2 := by
  unfold contentDims
  split_ifs <;> exact ⟨by assumption, by assumption⟩

theorem invoiceDest_inPage {W H : ℚ} (rot : Int) (clip : RectQ)
    (hw : 0 < clip.width) (hh : 0 < clip.height) :
    (invoiceDest W H rot clip).inPage W H := by
  obtain ⟨hcw, hch⟩ := contentDims_pos rot hw hh
  exact destRect_inPage (fit_le_W hcw) (fit_le_H hch)

theorem labelDest_inPage {W H zoom : ℚ} (clip : RectQ) (hW : 0 < W)
    (hH : 0 < H) (hw : 0 < clip.width) (hh : 0 < clip.height)
    (hz1 : zoom ≤ 1) : (labelDest W H zoom clip).inPage W H := by
  unfold labelDest
  have hm0 : 0 ≤ min (W / clip.width) (H / clip.height) := fit_nonneg hW hH hw hh
  apply destRect_inPage
  · have h1 : clip.width * (min (W / clip.width) (H / clip.height) * zoom) =
        clip.width * min (W / clip.width) (H / clip.height) * zoom := by ring
    rw [h1]
    have h2 : clip.width * min (W / clip.width) (H / clip.height) * zoom ≤
        clip.width * min (W / clip.width) (H / clip.height) * 1 :=
      mul_le_mul_of_nonneg_left hz1 (mul_nonneg hw.le hm0)
    have h3 : clip.width * min (W / clip.width) (H / clip.height) ≤ W :=
      fit_le_W hw
    linarith
  · have h1 : clip.height * (min (W / clip.width) (H / clip.height) * zoom) =
        clip.height * min (W / clip.width) (H / clip.height) * zoom := by ring
    rw [h1]
    have h2 : clip.height * min (W / clip.width) (H / clip.height) * zoom ≤
        clip.height * min (W / clip.width) (H / clip.height) * 1 :=
      mul_le_mul_of_nonneg_left hz1 (mul_nonneg hh.le hm0)
    have h3 : clip.height * min (W / clip.width) (H / clip.height) ≤ H :=
      fit_le_H hh
    linarith

/-! ### Auxiliary rewriting lemmas for the code grammar -/

theorem upperL_nil : upperL [] = [] := rfl

theorem upperL_cons (x : Char) (xs : Str) :
    upperL (x :: xs) = charUp x :: upperL xs := rfl

theorem upperL_append (xs ys : Str) :
    upperL (xs ++ ys) = upperL xs ++ upperL ys := List.map_append charUp xs ys

/-! ## Claim theorems -/

/-- C1: for every order record in the store and every line item in it, at
every point reachable by any sequence of `ingest_page`, `apply_scan` and
`bulk_fulfill` operations, the number of verified unit tokens is at most
the item's quantity; and a scan arriving at a full item skips it (leaves it
unchanged) rather than truncating. -/
theorem C1_store_invariant (reg : Registry) (comp : Comp) (ops : List Op)
    (st : Store) (h : StoreInv st) :
    StoreInv (execOps reg comp st ops) ∧
      ∀ (ty : VType) (sku : Str) (pid : Option Str) (it : Item),
        it.qty ≤ it.product_ids.length → scanItem1 reg ty sku pid it = none :=
  ⟨execOps_inv h, fun _ _ _ _ hfull => scanItem1_full hfull⟩

theorem C1_witness :
    StoreInv ([] : Store) ∧ StoreInv (execOps regW compActual [] opsW) :=
  ⟨by decide, (C1_store_invariant regW compActual opsW [] (by decide)).1⟩

/-- C2: under the store invariant, completion evaluation returns true iff
every line item whose SKU is not no-scan exempt has exactly `quantity`
verified unit tokens; exempt items are ignored entirely, whatever their own
token count. -/
theorem C2_completion_iff (reg : Registry) (o : Order)
    (h : ∀ it ∈ o.items, it.product_ids.length ≤ it.qty) :
    isComplete reg o = true ↔
      ∀ it ∈ o.items, isNoscanSku reg (upperL it.sku) = false →
        it.product_ids.length = it.qty := by
  unfold isComplete
  rw [List.all_eq_true]
  constructor
  · intro hall it hmem hns
    have h1 := hall it hmem
    rw [hns] at h1
    simp only [Bool.false_or, decide_eq_true_eq] at h1
    have h2 := h it hmem
    omega
  · intro hiff it hmem
    cases hn : isNoscanSku reg (upperL it.sku) with
    | true => simp [hn]
    | false =>
      have h1 := hiff it hmem hn
      simp only [hn, Bool.false_or, decide_eq_true_eq]
      omega

theorem C2_witness :
    (∀ it ∈ ordC2W.items, it.product_ids.length ≤ it.qty) ∧
      isComplete regW ordC2W = true :=
  ⟨by decide, (C2_completion_iff regW ordC2W (by decide)).mpr (by decide)⟩

/-- C3: a mutating scan that completes its order triggers composition
synchronously, but the composition call in `app.py` passes `labels` and
`invoices` keyword arguments that `processor.slice_and_build_order_pdf`
does not accept, so the call always raises `TypeError`; the completing
scan therefore always lands in `status = error` with the detail captured,
and the `ready` outcome promised by the spec is unreachable.  The second
conjunct shows the same scan against a composition collaborator honouring
the intended interface, confirming the success branch would set `ready`. -/
theorem C3_completing_scan_always_errors :
    applyScan regW compActual (str "AT0001") [ordScanW] =
      (ScanResp.done true none,
        [⟨str "OD1", 0, str "uploaded.pdf", Status.error,
          [⟨str "AT0001", 1, [scanTok (str "AT0001") 1]⟩], none,
          some typeErrDetail⟩]) ∧
    applyScan regW compOk (str "AT0001") [ordScanW] =
      (ScanResp.done true (some (str "OD1")),
        [⟨str "OD1", 0, str "uploaded.pdf", Status.ready,
          [⟨str "AT0001", 1, [scanTok (str "AT0001") 1]⟩],
          some (str "OD1.pdf"), none⟩]) := by
  constructor
  · decide
  · decide

/-- C4: the per-order output document is claimed to hold one label page
followed by `invoice_copies` invoice pages, but
`slice_and_build_order_pdf` cannot receive the print counts (its
signature has no such parameters; the call passing them raises, modelled
by `compActual`) and unconditionally writes the invoice page exactly
twice, so for `invoice_copies = 3` the claim fails. -/
theorem C4_invoice_copies_ignored :
    sliceAndBuildPages.length = 3 ∧
    sliceAndBuildPages.count PageKind.invoice = 2 ∧
    sliceAndBuildPages ≠ PageKind.label :: List.replicate 3 PageKind.invoice ∧
    compActual ordScanW = Except.error typeErrDetail := by
  refine ⟨rfl, rfl, by decide, rfl⟩

/-- C6: a bare-SKU scan code whose resolved SKU is Compulsory is rejected
with a format error naming the expected compound form, and the store is
returned unchanged. -/
theorem C6_bare_compulsory_rejected (reg : Registry) (comp : Comp) (code : Str)
    (store : Store) (sku : Str)
    (hb : parseBare (normCode code) = some sku)
    (hc : getVType reg sku = VType.Compulsory) :
    applyScan reg comp code store = (ScanResp.err (compulsoryMsg sku), store) := by
  have hne : ¬(normCode code = []) := by
    intro h0
    rw [h0] at hb
    exact Option.noConfusion hb
  simp [applyScan, hne, hb, hc]

theorem C6_witness :
    (parseBare (normCode (str "AT0002")) = some (str "AT0002") ∧
      getVType regW (str "AT0002") = VType.Compulsory) ∧
    applyScan regW compActual (str "AT0002") [ordScanW] =
      (ScanResp.err (compulsoryMsg (str "AT0002")), [ordScanW]) :=
  ⟨⟨by decide, by decide⟩,
    C6_bare_compulsory_rejected regW compActual (str "AT0002") [ordScanW]
      (str "AT0002") (by decide) (by decide)⟩

/-- C5: a single scan event mutates at most one line item in at most one
order: either the store comes back untouched, or it decomposes as an
unchanged prefix of orders none of which the resolved scan can mutate,
one pending order in which exactly one item gains exactly one unit token
(its earlier items untouched, the item previously below quantity), and an
unchanged suffix, the search having stopped there. -/
theorem C5_single_mutation (reg : Registry) (comp : Comp) (code : Str)
    (store : Store) :
    (applyScan reg comp code store).2 = store ∨
      ∃ (ty : VType) (sku : Str) (pid : Option Str) (pre : Store) (o o2 : Order)
        (suf : Store) (ipre : List Item) (it it2 : Item) (isuf : List Item)
        (tok : Str),
        store = pre ++ o :: suf ∧
        (applyScan reg comp code store).2 = pre ++ o2 :: suf ∧
        o.status = Status.pending ∧
        (∀ p ∈ pre, scanOrder1 reg comp ty sku pid p = none) ∧
        o2.order_id = o.order_id ∧
        o.items = ipre ++ it :: isuf ∧
        o2.items = ipre ++ it2 :: isuf ∧
        upperL it.sku = sku ∧
        it2.sku = it.sku ∧ it2.qty = it.qty ∧
        it2.product_ids = it.product_ids ++ [tok] ∧
        it.product_ids.length < it.qty := by
  rcases applyScan_store_cases reg comp code store with h | ⟨ty, sku, pid, h⟩
  · left; exact h
  · rcases scanOrders_cases reg comp ty sku pid store with
      hc | ⟨pre, o, oc, suf, hst, heq, hone, hpre⟩
    · left; rw [h, hc]
    · right
      obtain ⟨hpend, items2, hitems, hoc⟩ := scanOrder1_some hone
      obtain ⟨ipre, it, it2, isuf, hidec, hidec2, hf, _⟩ :=
        replaceFirst_some (scanItem1 reg ty sku pid) hitems
      obtain ⟨hsku, hqty, hup, hlen, tok, hpids⟩ := scanItem1_some hf
      refine ⟨ty, sku, pid, pre, o, oc.1, suf, ipre, it, it2, isuf, tok,
        hst, ?_, hpend, hpre, ?_, hidec, ?_, hup, hsku, hqty, hpids, hlen⟩
      · rw [h, heq]
      · rw [hoc]
        exact (finishOrder_items reg comp _).2
      · rw [hoc]
        rw [(finishOrder_items reg comp _).1]
        exact hidec2

/-- C7: a compound scan code — valid SKU, optional separator among hyphen,
underscore and colon, a unit letter and one to four unit digits — parses
case-insensitively (via the upfront upper-casing) to the unit token formed
by the upper-cased letter followed by the digits zero-padded to width 4. -/
theorem C7_code_normalization (p q a b c d e : Char) (sep ds : Str)
    (hp : charUp p = 'A') (hq : charUp q = 'T')
    (ha : isDigitC a = true) (hb : isDigitC b = true)
    (hc : isDigitC c = true) (hd : isDigitC d = true)
    (hsep : sep = [] ∨ sep = ['-'] ∨ sep = ['_'] ∨ sep = [':'])
    (he : isUpperAZ (charUp e) = true)
    (hds : ∀ x ∈ ds, isDigitC x = true)
    (hlen1 : 1 ≤ ds.length) (hlen4 : ds.length ≤ 4) :
    parseCompound (upperL (p :: q :: a :: b :: c :: d :: (sep ++ e :: ds))) =
      some (['A', 'T', a, b, c, d], charUp e :: pad4 (strVal ds)) := by
  have hmap : upperL (p :: q :: a :: b :: c :: d :: (sep ++ e :: ds)) =
      'A' :: 'T' :: a :: b :: c :: d :: (upperL sep ++ charUp e :: ds) := by
    rw [upperL_cons, upperL_cons, upperL_cons, upperL_cons, upperL_cons,
      upperL_cons, upperL_append, upperL_cons, upperL_digits hds,
      hp, hq, charUp_digit ha, charUp_digit hb, charUp_digit hc, charUp_digit hd]
  rw [hmap]
  have hcond : (isDigitC a && isDigitC b && isDigitC c && isDigitC d) = true := by
    rw [ha, hb, hc, hd]; rfl
  have hdrop : dropSep (upperL sep ++ charUp e :: ds) = charUp e :: ds := by
    rcases hsep with rfl | rfl | rfl | rfl
    · rw [upperL_nil, List.nil_append]
      simp only [dropSep]
      rw [if_neg (isUpperAZ_not_sep he)]
    · simp only [upperL_cons, upperL_nil, List.singleton_append, dropSep]
      rw [if_pos (Or.inl (by decide))]
    · simp only [upperL_cons, upperL_nil, List.singleton_append, dropSep]
      rw [if_pos (Or.inr (Or.inl (by decide)))]
    · simp only [upperL_cons, upperL_nil, List.singleton_append, dropSep]
      rw [if_pos (Or.inr (Or.inr (by decide)))]
  have hall : ds.all isDigitC = true := List.all_eq_true.mpr hds
  have hd1 : decide (1 ≤ ds.length) = true := decide_eq_true hlen1
  have hd4 : decide (ds.length ≤ 4) = true := decide_eq_true hlen4
  have hunit : parseUnit (charUp e :: ds) = some (charUp e :: pad4 (strVal ds)) := by
    simp only [parseUnit, he, hall, hd1, hd4, Bool.and_self, if_true]
  simp only [parseCompound, hcond, if_true, hdrop, hunit]

theorem C7_witness :
    parseCompound (upperL (str "at0001-a1")) =
        some (str "AT0001", str "A0001") ∧
      parseCompound (upperL (str "AT0001_A001")) =
        some (str "AT0001", str "A0001") ∧
      parseCompound (upperL (str "AT0001:A0001")) =
        some (str "AT0001", str "A0001") :=
  ⟨(C7_code_normalization 'a' 't' '0' '0' '0' '1' 'a' ['-'] ['1']
        (by decide) (by decide) (by decide) (by decide) (by decide) (by decide)
        (Or.inr (Or.inl rfl)) (by decide) (by decide) (by decide)
        (by decide)).trans (by decide),
    (C7_code_normalization 'A' 'T' '0' '0' '0' '1' 'A' ['_'] ['0', '0', '1']
        (by decide) (by decide) (by decide) (by decide) (by decide) (by decide)
        (Or.inr (Or.inr (Or.inl rfl))) (by decide) (by decide) (by decide)
        (by decide)).trans (by decide),
    (C7_code_normalization 'A' 'T' '0' '0' '0' '1' 'A' [':']
        ['0', '0', '0', '1']
        (by decide) (by decide) (by decide) (by decide) (by decide) (by decide)
        (Or.inr (Or.inr (Or.inr rfl))) (by decide) (by decide) (by decide)
        (by decide)).trans (by decide)⟩

/-- C8 (counterexample): with the configuration's `label_zoom = 1.83`, the
label render of a non-degenerate clip region (here: a clip with exactly the
output page's dimensions) produces a destination rectangle extending
outside the page bounds, refuting the containment half of the claim. -/
theorem C8_counterexample :
    0 < clipFullCE.width ∧ 0 < clipFullCE.height ∧
      (labelDest page_width_pt page_height_pt label_zoom clipFullCE).x0 < 0 ∧
      ¬(labelDest page_width_pt page_height_pt label_zoom clipFullCE).inPage
          page_width_pt page_height_pt := by
  refine ⟨by norm_num [clipFullCE, RectQ.width, page_width_pt],
    by norm_num [clipFullCE, RectQ.height, page_height_pt], ?_, ?_⟩
  · norm_num [labelDest, destRect, clipFullCE, RectQ.width, RectQ.height,
      page_width_pt, page_height_pt, label_zoom, min_self]
  · intro hin
    obtain ⟨h1, -, -, -⟩ := hin
    norm_num [labelDest, destRect, clipFullCE, RectQ.width, RectQ.height,
      page_width_pt, page_height_pt, label_zoom, min_self] at h1

/-- C8 (amended): both renders scale uniformly (the destination rectangle
has the same aspect ratio as the rendered content, rotation-adjusted for
the invoice); the invoice destination always lies within the output page;
and the label destination lies within the page whenever the zoom
multiplier is at most 1 — with the default `label_zoom = 1.83` the label
destination can extend beyond the page (see the counterexample). -/
theorem C8_uniform_scale_and_bounds (W H zoom : ℚ) (clip : RectQ) (rot : Int)
    (hW : 0 < W) (hH : 0 < H) (hw : 0 < clip.width) (hh : 0 < clip.height) :
    (labelDest W H zoom clip).width * clip.height =
        (labelDest W H zoom clip).height * clip.width ∧
      (invoiceDest W H rot clip).width * (contentDims rot clip).2 =
        (invoiceDest W H rot clip).height * (contentDims rot clip).1 ∧
      (invoiceDest W H rot clip).inPage W H ∧
      (0 ≤ zoom → zoom ≤ 1 → (labelDest W H zoom clip).inPage W H) := by
  refine ⟨?_, ?_, invoiceDest_inPage rot clip hw hh,
    fun _ hz1 => labelDest_inPage clip hW hH hw hh hz1⟩
  · unfold labelDest
    rw [destRect_width, destRect_height]
    ring
  · unfold invoiceDest
    rw [destRect_width, destRect_height]
    ring

theorem C8_witness :
    ((0 : ℚ) < clipFullCE.width ∧ (0 : ℚ) < clipFullCE.height ∧
        (0 : ℚ) ≤ 1 ∧ (1 : ℚ) ≤ 1) ∧
      (labelDest page_width_pt page_height_pt 1 clipFullCE).inPage
        page_width_pt page_height_pt :=
  ⟨⟨by norm_num [clipFullCE, RectQ.width, page_width_pt],
      by norm_num [clipFullCE, RectQ.height, page_height_pt],
      by norm_num, by norm_num⟩,
    (C8_uniform_scale_and_bounds page_width_pt page_height_pt 1 clipFullCE
        rotate_invoice_deg (by norm_num [page_width_pt])
        (by norm_num [page_height_pt])
        (by norm_num [clipFullCE, RectQ.width, page_width_pt])
        (by norm_num [clipFullCE, RectQ.height, page_height_pt])).2.2.2
      (by norm_num) (by norm_num)⟩

/-- C9 (counterexample): `bulk_print` never checks the order status, so a
non-pending (here: ready) single-item order for the targeted SKU is
mutated, refuting the claim that only pending orders are affected and every
other order is left completely unchanged. -/
theorem C9_counterexample :
    ordReadyCE.status = Status.ready ∧
      bulkFulfill compActual 4 (str "AT0001") [ordReadyCE] ≠ [ordReadyCE] := by
  exact ⟨rfl, by decide⟩

/-- C9 (amended): `bulk_fulfill(sku)` processes exactly the orders that
have exactly one line item whose SKU matches the given SKU
case-insensitively — regardless of the order's status; every order with a
different item count or a different SKU is left completely unchanged, and
each processed order has its single item bulk-filled and its composition
outcome recorded. -/
theorem C9_bulk_targets (comp : Comp) (fuel : Nat) (rawSku : Str) (st : Store)
    (h : upperL (trimL rawSku) ≠ []) :
    bulkFulfill comp fuel rawSku st =
        st.map (bulkOrder1 comp fuel (upperL (trimL rawSku))) ∧
      (∀ o : Order, (∀ it : Item, o.items ≠ [it]) →
        bulkOrder1 comp fuel (upperL (trimL rawSku)) o = o) ∧
      (∀ (o : Order) (it : Item), o.items = [it] →
        upperL it.sku ≠ upperL (trimL rawSku) →
        bulkOrder1 comp fuel (upperL (trimL rawSku)) o = o) ∧
      (∀ (o : Order) (it : Item), o.items = [it] →
        upperL it.sku = upperL (trimL rawSku) →
        bulkOrder1 comp fuel (upperL (trimL rawSku)) o =
          bulkCompose comp
            { o with items := [bulkFill (upperL (trimL rawSku)) fuel it] }) := by
  refine ⟨?_, fun o h2 => bulkOrder1_not_single h2,
    fun o it h2 h3 => bulkOrder1_other_sku h2 h3,
    fun o it h2 h3 => bulkOrder1_hit h2 h3⟩
  unfold bulkFulfill
  rw [if_neg h]
  exact bulkLoop_eq_map comp fuel (upperL (trimL rawSku)) st

theorem C9_witness :
    upperL (trimL (str "AT0001")) ≠ [] ∧
      bulkFulfill compActual 2 (str "AT0001") [ordReadyCE] =
        [ordReadyCE].map (bulkOrder1 compActual 2 (upperL (trimL (str "AT0001")))) :=
  ⟨by decide,
    (C9_bulk_targets compActual 2 (str "AT0001") [ordReadyCE] (by decide)).1⟩

/-- C10 (counterexample): the bulk token-filling loop does not strictly
increase `len(product_ids)` on every iteration: when the token
`BULK-{sku}-{len+1}` is already present, the body changes nothing, so the
source `while` loop never terminates — here with `len = 1 < 2 = qty` and
`BULK-AT0001-0002` already stored, one iteration (and fifty) leave the item
unchanged. -/
theorem C10_counterexample :
    itemBulkCE.product_ids.length < itemBulkCE.qty ∧
      bulkStep (str "AT0001") itemBulkCE = itemBulkCE ∧
      bulkFill (str "AT0001") 50 itemBulkCE = itemBulkCE := by
  exact ⟨by decide, by decide, by decide⟩

/-- C10 (amended): when no token of the bulk naming scheme with an index
beyond the current length is already present — which holds in particular
for the states the application itself builds — every iteration with
`len < qty` appends the freshly generated token and strictly increases the
length, and the loop terminates with the item filled to exactly its
quantity. -/
theorem C10_bulk_fill_terminates (sku : Str) (it : Item) (fuel : Nat)
    (hno : ∀ i, it.product_ids.length < i → bulkTok sku i ∉ it.product_ids)
    (hfuel : it.qty ≤ it.product_ids.length + fuel) :
    (it.product_ids.length < it.qty →
        (bulkStep sku it).product_ids.length = it.product_ids.length + 1) ∧
      (bulkFill sku fuel it).product_ids.length =
        max it.product_ids.length it.qty := by
  constructor
  · intro _
    rw [bulkStep_progress (hno _ (Nat.lt_succ_self _)), List.length_append]
    rfl
  · exact bulkFill_len fuel it hno hfuel

theorem C10_witness :
    itemEmptyW.qty ≤ itemEmptyW.product_ids.length + 2 ∧
      (bulkFill (str "AT0001") 2 itemEmptyW).product_ids.length =
        max itemEmptyW.product_ids.length itemEmptyW.qty :=
  ⟨by decide,
    (C10_bulk_fill_terminates (str "AT0001") itemEmptyW 2
        (fun i _ => List.not_mem_nil (bulkTok (str "AT0001") i)) (by decide)).2⟩

end FlipkartScanner
